import Mathlib

/-!
Verification of the template-composition core of
`packages/create-repo/src/index.ts` (the `tsukemono` scaffolding tool).

The development shallowly embeds:
* JSON values and the lodash `mergeWith` merge used by `mergeJsonFile`
  (with the array set-union customizer),
* the merge-strategy table `mergeFiles` and `isMergeable`,
* the recursive directory walk `copyTemplate` over a file-system tree,
  including the `._` → `.` entry renaming and the reserved `.tsukemono`
  override directories,
* the `init` orchestrator (target-directory handling and the ordered
  template-composition calls), with the interactive prompt answers
  abstracted as explicit inputs.

File contents are byte strings; JSON numeric literals are modelled as
integers (fractional and exponent literals, which none of the repository's
mergeable JSON files use, are treated as parse failures).
-/

/-- JSON values as produced by `JSON.parse`. -/
inductive Json where
  | null
  | bool (b : Bool)
  | num (n : Int)
  | str (s : String)
  | arr (xs : List Json)
  | obj (kvs : List (String × Json))

mutual
/-- Structural equality of JSON values, used by the spec-side `firstSeenDedup`
below. (The JS `Set` in the code compares by SameValueZero, modelled by
`jsSameValueZero`: on the object/array elements produced by `JSON.parse` it is
reference identity, never this structural equality.) -/
def Json.beq : Json → Json → Bool
  | .null, .null => true
  | .bool a, .bool b => a == b
  | .num a, .num b => a == b
  | .str a, .str b => a == b
  | .arr a, .arr b => Json.beqList a b
  | .obj a, .obj b => Json.beqPairs a b
  | _, _ => false
termination_by a _ => (sizeOf a, 2)

/-- Element-wise equality of JSON arrays. -/
def Json.beqList : List Json → List Json → Bool
  | [], [] => true
  | x :: xs, y :: ys => Json.beq x y && Json.beqList xs ys
  | _, _ => false
termination_by a _ => (sizeOf a, 1)

/-- Binding-wise equality of JSON objects. -/
def Json.beqPairs : List (String × Json) → List (String × Json) → Bool
  | [], [] => true
  | (k, v) :: xs, (k2, v2) :: ys => k == k2 && Json.beq v v2 && Json.beqPairs xs ys
  | _, _ => false
termination_by a _ => (sizeOf a, 1)
end

instance : BEq Json := ⟨Json.beq⟩

/-- Whether a JSON value is a primitive (null, boolean, number or string). -/
def jsIsPrimitive : Json → Bool
  | .arr _ => false
  | .obj _ => false
  | _ => true

/-- The SameValueZero equality a JS `Set` applies to the values `mergeJsonFile`
feeds it: the elements of `a.concat(b)` come from the two freshly parsed file
contents, where primitives compare by value while every parsed object or array
is a distinct heap reference (a parse tree contains no repeated references,
and the two files' trees share none) — so composite elements never compare
equal to anything. -/
def jsSameValueZero : Json → Json → Bool
  | .null, .null => true
  | .bool a, .bool b => a == b
  | .num a, .num b => a == b
  | .str a, .str b => a == b
  | _, _ => false

/-- Models `Array.from(new Set(l))` (line 137): a JS `Set` iterates in insertion
order and skips elements already present under SameValueZero, so the first
occurrence of each primitive value survives and composite elements are always
kept. -/
def jsSetDedup (l : List Json) : List Json :=
  l.foldl (fun acc x => if acc.any (jsSameValueZero x) then acc else acc ++ [x]) []

/-- Stated from the spec's words: the "first-seen-order deduplicated" list —
keep each head and drop its later duplicates. The C3 theorem compares this
with what `jsSetDedup` computes. -/
def firstSeenDedup : List Json → List Json
  | [] => []
  | x :: rest => x :: firstSeenDedup (rest.filter (fun y => !(y == x)))
termination_by l => l.length
decreasing_by
  simp only [List.length_cons]
  exact Nat.lt_succ_of_le (List.length_filter_le _ _)

/-- Models the second argument of `a.concat(b)` (line 137): concatenating an
array spreads its elements, any other value is appended as a single element. -/
def jsConcatArg : Json → List Json
  | .arr ys => ys
  | v => [v]

/-- Property lookup on a parsed JSON object (first binding wins). -/
def lookupJson : List (String × Json) → String → Option Json
  | [], _ => none
  | (k2, v) :: rest, k => if k2 == k then some v else lookupJson rest k

mutual
/-- lodash `mergeWith` on one shared property (lines 132-139): the customizer
fires when the destination value is an array and replaces it with
`Array.from(new Set(a.concat(b)))`; otherwise the default deep merge applies —
two objects merge recursively, in every other case the template (source) value
wins. -/
def mergeVal (a b : Json) : Json :=
  match a, b with
  | .arr xs, vb => .arr (jsSetDedup (xs ++ jsConcatArg vb))
  | .obj ka, .obj kb => .obj (mergeObjEntries ka kb)
  | _, vb => vb
termination_by (sizeOf a, 2)

/-- lodash `mergeWith` on two parsed JSON objects: destination keys keep their
order (merged with the template's value where the template also binds them),
and template-only keys are appended in template order. -/
def mergeObjEntries (a b : List (String × Json)) : List (String × Json) :=
  mergeCommon a b ++ b.filter (fun kv => (lookupJson a kv.1).isNone)
termination_by (sizeOf a, 1)

/-- The destination-keys pass of `mergeObjEntries`. -/
def mergeCommon (a b : List (String × Json)) : List (String × Json) :=
  match a with
  | [] => []
  | (k, va) :: rest =>
    (k, match lookupJson b k with
        | some vb => mergeVal va vb
        | none => va) :: mergeCommon rest b
termination_by (sizeOf a, 0)
end

/-- lodash merging of two top-level arrays: index-wise element merge; extra
template elements are appended, extra destination elements are kept. -/
def zipMergeVal : List Json → List Json → List Json
  | xs, [] => xs
  | [], ys => ys
  | x :: xs, y :: ys => mergeVal x y :: zipMergeVal xs ys

/-- A JSON array seen as the index-keyed object lodash iterates over. -/
def indexedEntries (ys : List Json) : List (String × Json) :=
  ys.enum.map fun p => (Nat.repr p.1, p.2)

/-- `mergeWith(existingFileContent, templateFileContent, customizer)` on the two
parsed top-level values (line 132). Top-level shapes other than object/object
and array/array cannot arise from this repository's mergeable JSON files; they
are modelled up to their JSON-serializable effect: a primitive destination is
returned unchanged (its lodash object wrapper serializes back to the
primitive), a template object or array merged onto `null` starts from the
empty object, and a template array merged onto an object contributes its
elements as index-keyed properties. -/
def jsMergeWith (a b : Json) : Json :=
  match a, b with
  | .obj ka, .obj kb => .obj (mergeObjEntries ka kb)
  | .arr xs, .arr ys => .arr (zipMergeVal xs ys)
  | .obj ka, .arr ys => .obj (mergeObjEntries ka (indexedEntries ys))
  | .null, .obj kb => .obj (mergeObjEntries [] kb)
  | .null, .arr ys => .obj (mergeObjEntries [] (indexedEntries ys))
  | av, _ => av

/-- Errors thrown during composition: the `UnhandledCaseError` of the merge
dispatch (lines 110-114), `JSON.parse` failures, and file-system errors. -/
inductive JsError where
  | unhandledCase (strategy : Option String)
  | syntaxError (msg : String)
  | fsError (msg : String)
deriving DecidableEq, Repr

/-- JSON whitespace (space, tab, line feed, carriage return). -/
def skipWs : List Char → List Char
  | [] => []
  | c :: rest =>
    if c = ' ' ∨ c = '\t' ∨ c = '\n' ∨ c = '\r' then skipWs rest else c :: rest

/-- Value of one hexadecimal digit. -/
def hexDigitVal (c : Char) : Option Nat :=
  if '0' ≤ c ∧ c ≤ '9' then some (c.toNat - '0'.toNat)
  else if 'a' ≤ c ∧ c ≤ 'f' then some (10 + c.toNat - 'a'.toNat)
  else if 'A' ≤ c ∧ c ≤ 'F' then some (10 + c.toNat - 'A'.toNat)
  else none

/-- One JSON string escape sequence (after the backslash). -/
def parseEscape (esc : Char) (rest : List Char) : Option (Char × List Char) :=
  match esc, rest with
  | '"', r => some ('"', r)
  | '\\', r => some ('\\', r)
  | '/', r => some ('/', r)
  | 'b', r => some (Char.ofNat 8, r)
  | 'f', r => some (Char.ofNat 12, r)
  | 'n', r => some ('\n', r)
  | 'r', r => some ('\r', r)
  | 't', r => some ('\t', r)
  | 'u', h1 :: h2 :: h3 :: h4 :: r =>
    (match hexDigitVal h1, hexDigitVal h2, hexDigitVal h3, hexDigitVal h4 with
     | some a, some b, some c, some d =>
       some (Char.ofNat (((a * 16 + b) * 16 + c) * 16 + d), r)
     | _, _, _, _ => none)
  | _, _ => none

/-- String-literal body parser (after the opening quote), with JSON escapes. -/
def parseStringChars : Nat → List Char → Option (List Char × List Char)
  | 0, _ => none
  | fuel + 1, cs =>
    match cs with
    | [] => none
    | '"' :: rest => some ([], rest)
    | '\\' :: esc :: rest =>
      (parseEscape esc rest).bind fun p =>
        (parseStringChars fuel p.2).map fun q => (p.1 :: q.1, q.2)
    | c :: rest =>
      if c.toNat < 32 then none
      else (parseStringChars fuel rest).map fun q => (c :: q.1, q.2)

/-- Integer-literal parser: optional minus, digits, no leading zero. Fractional
and exponent literals are outside this model and fail. -/
def parseIntLit (cs : List Char) : Option (Int × List Char) :=
  let p : Bool × List Char :=
    match cs with
    | '-' :: rest => (true, rest)
    | _ => (false, cs)
  let digits := p.2.takeWhile Char.isDigit
  let rest := p.2.dropWhile Char.isDigit
  if digits = [] then none
  else if digits.length > 1 ∧ digits.head? = some '0' then none
  else
    match rest with
    | '.' :: _ => none
    | 'e' :: _ => none
    | 'E' :: _ => none
    | _ =>
      let n : Nat := digits.foldl (fun acc c => acc * 10 + (c.toNat - '0'.toNat)) 0
      some (if p.1 then -(n : Int) else (n : Int), rest)

mutual
/-- Recursive-descent JSON value parser (fuelled). -/
def parseValue : Nat → List Char → Option (Json × List Char)
  | 0, _ => none
  | fuel + 1, cs =>
    match skipWs cs with
    | 'n' :: 'u' :: 'l' :: 'l' :: rest => some (.null, rest)
    | 't' :: 'r' :: 'u' :: 'e' :: rest => some (.bool true, rest)
    | 'f' :: 'a' :: 'l' :: 's' :: 'e' :: rest => some (.bool false, rest)
    | '"' :: rest =>
      (parseStringChars (rest.length + 1) rest).map fun p => (.str ⟨p.1⟩, p.2)
    | '[' :: rest => parseArrayBody fuel rest
    | '\x7b' :: rest => parseObjectBody fuel rest
    | cs2 => (parseIntLit cs2).map fun p => (.num p.1, p.2)

/-- Array parser, positioned just after `[`. -/
def parseArrayBody : Nat → List Char → Option (Json × List Char)
  | 0, _ => none
  | fuel + 1, cs =>
    match skipWs cs with
    | ']' :: rest => some (.arr [], rest)
    | cs2 =>
      (parseValue fuel cs2).bind fun p =>
        (parseArrayItems fuel p.2).map fun q => (.arr (p.1 :: q.1), q.2)

/-- Array continuation parser: `, value` repeated until `]`. -/
def parseArrayItems : Nat → List Char → Option (List Json × List Char)
  | 0, _ => none
  | fuel + 1, cs =>
    match skipWs cs with
    | ',' :: rest =>
      (parseValue fuel rest).bind fun p =>
        (parseArrayItems fuel p.2).map fun q => (p.1 :: q.1, q.2)
    | ']' :: rest => some ([], rest)
    | _ => none

/-- Object parser, positioned just after the opening brace. -/
def parseObjectBody : Nat → List Char → Option (Json × List Char)
  | 0, _ => none
  | fuel + 1, cs =>
    match skipWs cs with
    | '\x7d' :: rest => some (.obj [], rest)
    | cs2 =>
      (parseMember fuel cs2).bind fun p =>
        (parseObjectItems fuel p.2).map fun q => (.obj (p.1 :: q.1), q.2)

/-- Object continuation parser: `, member` repeated until the closing brace. -/
def parseObjectItems : Nat → List Char → Option (List (String × Json) × List Char)
  | 0, _ => none
  | fuel + 1, cs =>
    match skipWs cs with
    | ',' :: rest =>
      (parseMember fuel rest).bind fun p =>
        (parseObjectItems fuel p.2).map fun q => (p.1 :: q.1, q.2)
    | '\x7d' :: rest => some ([], rest)
    | _ => none

/-- One `"key": value` member of an object. -/
def parseMember : Nat → List Char → Option ((String × Json) × List Char)
  | 0, _ => none
  | fuel + 1, cs =>
    match skipWs cs with
    | '"' :: rest =>
      (parseStringChars (rest.length + 1) rest).bind fun p =>
        match skipWs p.2 with
        | ':' :: r2 => (parseValue fuel r2).map fun q => ((⟨p.1⟩, q.1), q.2)
        | _ => none
    | _ => none
end

/-- Models `JSON.parse` on the integer-literal fragment of JSON. -/
def jsonParse (s : String) : Option Json :=
  match parseValue (s.length + 1) s.data with
  | some p => if skipWs p.2 = [] then some p.1 else none
  | none => none

/-- Lower-case hexadecimal digit. -/
def hexChar (n : Nat) : Char :=
  if n < 10 then Char.ofNat ('0'.toNat + n) else Char.ofNat ('a'.toNat + n - 10)

/-- Escaping of one character inside a `JSON.stringify` string literal. -/
def escapeJsonChar (c : Char) : List Char :=
  if c = '"' then ['\\', '"']
  else if c = '\\' then ['\\', '\\']
  else if c = '\n' then ['\\', 'n']
  else if c = '\r' then ['\\', 'r']
  else if c = '\t' then ['\\', 't']
  else if c = Char.ofNat 8 then ['\\', 'b']
  else if c = Char.ofNat 12 then ['\\', 'f']
  else if c.toNat < 32 then
    ['\\', 'u', '0', '0', hexChar (c.toNat / 16), hexChar (c.toNat % 16)]
  else [c]

/-- Quoted string as printed by `JSON.stringify`. -/
def quoteJson (s : String) : String :=
  ⟨'"' :: s.data.foldr (fun c acc => escapeJsonChar c ++ acc) ['"']⟩

/-- Indentation prefix at a nesting level of `JSON.stringify(v, null, 2)`. -/
def indentOf (level : Nat) : String :=
  ⟨List.replicate (2 * level) ' '⟩

mutual
/-- `JSON.stringify(v, null, 2)` at a given nesting level. -/
def stringifyVal (j : Json) (level : Nat) : String :=
  match j with
  | .null => "null"
  | .bool true => "true"
  | .bool false => "false"
  | .num n => toString n
  | .str s => quoteJson s
  | .arr [] => "[]"
  | .arr (x :: xs) =>
    "[\n" ++ stringifyItems (x :: xs) (level + 1) ++ "\n" ++ indentOf level ++ "]"
  | .obj [] => "\x7b\x7d"
  | .obj (kv :: kvs) =>
    "\x7b\n" ++ stringifyMembers (kv :: kvs) (level + 1) ++ "\n" ++ indentOf level ++ "\x7d"
termination_by (sizeOf j, 0)

/-- Array elements of `JSON.stringify`, one per line. -/
def stringifyItems (xs : List Json) (level : Nat) : String :=
  match xs with
  | [] => ""
  | [x] => indentOf level ++ stringifyVal x level
  | x :: y :: rest =>
    indentOf level ++ stringifyVal x level ++ ",\n" ++ stringifyItems (y :: rest) level
termination_by (sizeOf xs, 1)

/-- Object members of `JSON.stringify`, one per line. -/
def stringifyMembers (kvs : List (String × Json)) (level : Nat) : String :=
  match kvs with
  | [] => ""
  | [(k, v)] => indentOf level ++ quoteJson k ++ ": " ++ stringifyVal v level
  | (k, v) :: kv2 :: rest =>
    indentOf level ++ quoteJson k ++ ": " ++ stringifyVal v level ++ ",\n" ++
      stringifyMembers (kv2 :: rest) level
termination_by (sizeOf kvs, 1)
end

/-- `mergeJsonFile` (lines 125-141): parse both file contents (trimmed), merge
the template into the existing value with the array-union customizer, and
pretty-print the result with two-space indentation. The returned string is the
content written back over the existing file; a parse failure models the thrown
`SyntaxError`. -/
def mergeJsonFile (existingContent templateContent : String) : Except JsError String :=
  match jsonParse existingContent.trim with
  | none => .error (.syntaxError "JSON.parse: existing file")
  | some a =>
    match jsonParse templateContent.trim with
    | none => .error (.syntaxError "JSON.parse: template file")
    | some b => .ok (stringifyVal (jsMergeWith a b) 0)

/-- `appendFiles` (lines 143-147): read both files and split them into lines,
then only log the pair — nothing is written back. The returned pair is exactly
what gets logged. -/
def appendFiles (existingContent templateContent : String) : List String × List String :=
  (existingContent.splitOn "\n", templateContent.splitOn "\n")

/-- The fixed merge-strategy table `mergeFiles` (lines 149-155). -/
def mergeFiles : List (String × String) :=
  [(".eslintrc", "json"), ("package.json", "json"), ("lerna.json", "json"),
   (".gitignore", "append"), (".prettierignore", "append")]

/-- `isMergeable` (lines 121-123): `Object.keys(mergeFiles).includes(file)`. -/
def isMergeable (name : String) : Bool :=
  (mergeFiles.map Prod.fst).contains name

/-- The strategy lookup `mergeFiles[actualFileName]` (line 102). -/
def mergeStrategyOf (name : String) : Option String :=
  List.lookup name mergeFiles

/-- A directory tree: what the composer reads with `readdirSync`/`statSync` and
writes with `mkdirSync`/`copyFileSync`/`writeFileSync`. Entries are listed in
directory-listing order. -/
inductive FS where
  | file (content : String)
  | dir (entries : List (String × FS))

/-- Reading one entry of a directory (`existsSync`/`statSync`); first match. -/
def lookupEntry : List (String × FS) → String → Option FS
  | [], _ => none
  | (m, e) :: rest, n => if m = n then some e else lookupEntry rest n

/-- Writing one entry of a directory: replace in place, or append a new entry. -/
def setEntry : List (String × FS) → String → FS → List (String × FS)
  | [], n, v => [(n, v)]
  | (m, e) :: rest, n, v =>
    if m = n then (m, v) :: rest else (m, e) :: setEntry rest n v

/-- Models `file.replace(/^\._/, ".")` (line 76). -/
def renameEntryName (n : String) : String :=
  match n.data with
  | '.' :: '_' :: rest => ⟨'.' :: rest⟩
  | _ => n

/-- Models the replace call of line 89, which strips a leading `with-`. -/
def stripWithMarker (n : String) : String :=
  match n.data with
  | 'w' :: 'i' :: 't' :: 'h' :: '-' :: rest => ⟨rest⟩
  | _ => n

mutual
/-- The body of the `files.forEach` in `copyTemplate` (lines 75-117): process a
single template entry named `name` against the destination directory `dest`.
A directory entry named `.tsukemono` dispatches to the override loop; any
other directory is created if absent and recursed into; a file entry is copied
unless the destination already has a file of the renamed name in the mergeable
table, in which case the looked-up strategy is applied. -/
def copyEntry (name : String) (entry : FS) (dest : List (String × FS))
    (options : List String) : Except JsError (List (String × FS)) :=
  let actualFileName := renameEntryName name
  match entry with
  | .dir children =>
    if name = ".tsukemono" then
      applyOverrides children dest options
    else
      match lookupEntry dest actualFileName with
      | some (.file _) => .error (.fsError ("ENOTDIR: " ++ actualFileName))
      | some (.dir sub) =>
        (match copyTemplate children sub options with
         | .ok sub2 => .ok (setEntry dest actualFileName (.dir sub2))
         | .error e => .error e)
      | none =>
        (match copyTemplate children [] options with
         | .ok sub2 => .ok (setEntry dest actualFileName (.dir sub2))
         | .error e => .error e)
  | .file content =>
    match lookupEntry dest actualFileName with
    | none => .ok (setEntry dest actualFileName (.file content))
    | some (.dir _) => .error (.fsError ("EISDIR: " ++ actualFileName))
    | some (.file existing) =>
      if isMergeable actualFileName then
        match mergeStrategyOf actualFileName with
        | some "json" =>
          (match mergeJsonFile existing content with
           | .ok merged => .ok (setEntry dest actualFileName (.file merged))
           | .error e => .error e)
        | some "append" =>
          -- `appendFiles existing content` is computed and logged only;
          -- the destination directory is left untouched (lines 143-147)
          .ok dest
        | other => .error (.unhandledCase other)
      else
        .ok (setEntry dest actualFileName (.file content))
termination_by (sizeOf entry, 0)

/-- `copyTemplate` (lines 73-119) on the listed entries of the template
directory, threading the destination directory through the entries in order. -/
def copyTemplate (template : List (String × FS)) (dest : List (String × FS))
    (options : List String) : Except JsError (List (String × FS)) :=
  match template with
  | [] => .ok dest
  | (name, entry) :: rest =>
    match copyEntry name entry dest options with
    | .ok dest2 => copyTemplate rest dest2 options
    | .error e => .error e
termination_by (sizeOf template, 1)

/-- The `.tsukemono` branch (lines 82-93): apply each override child directory
whose `with-`-stripped name is among the applied options, composing it directly
into `dest` — with an empty applied-options list, since line 91 passes no third
argument. Non-directory children are skipped. -/
def applyOverrides (overrides : List (String × FS)) (dest : List (String × FS))
    (options : List String) : Except JsError (List (String × FS)) :=
  match overrides with
  | [] => .ok dest
  | (oname, .dir oentries) :: rest =>
    if options.contains (stripWithMarker oname) then
      match copyTemplate oentries dest [] with
      | .ok dest2 => applyOverrides rest dest2 options
      | .error e => .error e
    else applyOverrides rest dest options
  | (_, .file _) :: rest => applyOverrides rest dest options
termination_by (sizeOf overrides, 2)
end

/-- The destination tree produced by composing a template into an empty
directory with no applied options: reserved `.tsukemono` directories contribute
nothing, every other entry is kept in order with its leading `._` renamed to
`.`, files byte-for-byte. -/
def renamedTree : List (String × FS) → List (String × FS)
  | [] => []
  | (n, .file c) :: rest => (renameEntryName n, .file c) :: renamedTree rest
  | (n, .dir cs) :: rest =>
    if n = ".tsukemono" then renamedTree rest
    else (renameEntryName n, .dir (renamedTree cs)) :: renamedTree rest
termination_by es => sizeOf es

mutual
/-- Within every directory of the template (reserved marker directories aside),
the renamed entry names are pairwise distinct. This holds for any tree read
from disk unless two sibling entries collide after the `._` → `.` renaming. -/
def renamedTreeOk (es : List (String × FS)) : Bool :=
  decide ((renamedTree es).map Prod.fst).Nodup && subtreesOk es
termination_by (sizeOf es, 1)

/-- `renamedTreeOk` for every non-marker subdirectory. -/
def subtreesOk : List (String × FS) → Bool
  | [] => true
  | (_, .file _) :: rest => subtreesOk rest
  | (n, .dir cs) :: rest =>
    (if n = ".tsukemono" then true else renamedTreeOk cs) && subtreesOk rest
termination_by es => (sizeOf es, 0)
end

/-- Erase every reserved `.tsukemono` directory, at every depth. -/
def pruneAllMarkers : List (String × FS) → List (String × FS)
  | [] => []
  | (n, .file c) :: rest => (n, .file c) :: pruneAllMarkers rest
  | (n, .dir cs) :: rest =>
    if n = ".tsukemono" then pruneAllMarkers rest
    else (n, .dir (pruneAllMarkers cs)) :: pruneAllMarkers rest
termination_by es => sizeOf es

mutual
/-- Erase the `.tsukemono` directories nested strictly inside override trees
(the ones only reachable through a recursive `copyTemplate` call that was made
with an empty applied-options list), keeping everything else. -/
def pruneNestedMarkers : List (String × FS) → List (String × FS)
  | [] => []
  | (n, .file c) :: rest => (n, .file c) :: pruneNestedMarkers rest
  | (n, .dir cs) :: rest =>
    if n = ".tsukemono" then
      (n, .dir (pruneOverrideChildren cs)) :: pruneNestedMarkers rest
    else (n, .dir (pruneNestedMarkers cs)) :: pruneNestedMarkers rest
termination_by es => (sizeOf es, 1)

/-- Prune the bodies of the override children of one marker directory. -/
def pruneOverrideChildren : List (String × FS) → List (String × FS)
  | [] => []
  | (m, .dir ds) :: rest => (m, .dir (pruneAllMarkers ds)) :: pruneOverrideChildren rest
  | (m, .file c) :: rest => (m, .file c) :: pruneOverrideChildren rest
termination_by es => (sizeOf es, 0)
end

/-- The decision inputs of one `init` run: whether the target directory already
exists, its current entries, the answer to the clear-confirmation prompt, and
the selected options in selection order. The interactive prompts themselves
(project name, multiselect UI) are outside the model. -/
structure InitInputs where
  targetDirExists : Bool
  existingEntries : List (String × FS)
  confirmClear : Bool
  options : List String

/-- The observable outcome of one `init` run: whether it aborted at the
clear-confirmation prompt, the final contents of the target directory, and the
trace of `copyTemplate` calls (template directory name, applied-options
accumulator) in order. -/
structure InitOutcome where
  aborted : Bool
  root : Except JsError (List (String × FS))
  composeCalls : List (String × List String)

/-- The per-option loop of `init` (lines 60-68): each selected option's
`with-<option>` template is composed with the accumulator so far, and the
option is appended to the accumulator only after its call. -/
def optionComposeCalls : List String → List String → List (String × List String)
  | [], _ => []
  | o :: rest, acc => ("with-" ++ o, acc) :: optionComposeCalls rest (acc ++ [o])

/-- The full trace of composition calls of `init` (lines 59-68): the base
template is composed first — with the full selected-options list (line 59) —
then each `with-<option>` template with the accumulator built so far. -/
def initComposeCalls (options : List String) : List (String × List String) :=
  ("repo-base", options) :: optionComposeCalls options []

/-- Execute the traced composition calls in order against the templates
directory: a missing template directory models the `readdirSync` failure. -/
def runComposeCalls (templates : List (String × FS)) (root : List (String × FS)) :
    List (String × List String) → Except JsError (List (String × FS))
  | [] => .ok root
  | (tname, opts) :: rest =>
    match lookupEntry templates tname with
    | some (.dir es) =>
      (match copyTemplate es root opts with
       | .ok root2 => runComposeCalls templates root2 rest
       | .error e => .error e)
    | some (.file _) => .error (.fsError ("ENOTDIR: " ++ tname))
    | none => .error (.fsError ("ENOENT: " ++ tname))

/-- `init` (lines 17-71): create the target directory if absent; if it exists
non-empty, either clear it (confirmation) or return with no further action
(refusal); then compose the base template and each selected option's template
in order. -/
def init (templates : List (String × FS)) (i : InitInputs) : InitOutcome :=
  if i.targetDirExists && !i.existingEntries.isEmpty && !i.confirmClear then
    { aborted := true, root := .ok i.existingEntries, composeCalls := [] }
  else
    let root0 : List (String × FS) :=
      if i.targetDirExists && !i.existingEntries.isEmpty then []
      else if i.targetDirExists then i.existingEntries
      else []
    let calls := initComposeCalls i.options
    { aborted := false
      root := runComposeCalls templates root0 calls
      composeCalls := calls }

lemma contains_append_json (l1 l2 : List Json) (a : Json) :
    (l1 ++ l2).contains a = (l1.contains a || l2.contains a) := by
  induction l1 with
  | nil => simp
  | cons x xs ih => simp [List.contains_cons, ih, Bool.or_assoc]

lemma foldl_setInsert (l : List Json) :
    ∀ acc, l.foldl (fun acc x => if acc.contains x then acc else acc ++ [x]) acc =
      acc ++ firstSeenDedup (l.filter fun y => !(acc.contains y)) := by
  induction l with
  | nil => intro acc; simp [firstSeenDedup]
  | cons x rest ih =>
    intro acc
    by_cases hx : acc.contains x = true
    · simp only [List.foldl_cons, hx, if_pos, List.filter_cons, Bool.not_true,
        Bool.false_eq_true, if_neg, not_false_iff]
      simpa [hx] using ih acc
    · have hx' : acc.contains x = false := by simpa using hx
      simp only [List.foldl_cons, hx', Bool.false_eq_true, if_neg, not_false_iff,
        List.filter_cons, Bool.not_false, if_pos]
      rw [ih (acc ++ [x])]
      have hfil : (rest.filter fun y => !((acc ++ [x]).contains y)) =
          ((rest.filter fun y => !(acc.contains y)).filter fun y => !(y == x)) := by
        rw [List.filter_filter]
        apply List.filter_congr
        intro y _
        simp [contains_append_json, List.contains_cons, Bool.and_comm]
      rw [hfil, firstSeenDedup]
      simp

lemma json_beq_eq (a b : Json) : (a == b) = Json.beq a b := rfl

lemma jsSameValueZero_of_prim {x : Json} (hx : jsIsPrimitive x = true) (m : Json) :
    jsSameValueZero x m = (x == m) := by
  cases x <;> cases m <;>
    simp_all [jsSameValueZero, jsIsPrimitive, json_beq_eq, Json.beq]

lemma any_svz_eq_contains {x : Json} (hx : jsIsPrimitive x = true) :
    ∀ acc : List Json, acc.any (jsSameValueZero x) = acc.contains x := by
  intro acc
  induction acc with
  | nil => rfl
  | cons m ms ih =>
    rw [List.any_cons, List.contains_cons, ih, jsSameValueZero_of_prim hx]

lemma jsSetDedup_fold_of_prim (l : List Json) :
    ∀ acc, l.all jsIsPrimitive = true →
      l.foldl (fun acc x => if acc.any (jsSameValueZero x) then acc else acc ++ [x])
        acc =
      l.foldl (fun acc x => if acc.contains x then acc else acc ++ [x]) acc := by
  induction l with
  | nil => intro acc _; rfl
  | cons x rest ih =>
    intro acc hp
    rw [List.all_cons, Bool.and_eq_true] at hp
    simp only [List.foldl_cons]
    rw [any_svz_eq_contains hp.1 acc]
    exact ih _ hp.2

lemma jsSetDedup_eq_firstSeenDedup_of_prim (l : List Json)
    (hp : l.all jsIsPrimitive = true) : jsSetDedup l = firstSeenDedup l := by
  show l.foldl (fun acc x => if acc.any (jsSameValueZero x) then acc else acc ++ [x])
      [] = firstSeenDedup l
  rw [jsSetDedup_fold_of_prim l [] hp]
  have h := foldl_setInsert l []
  simpa using h

lemma lookupJson_append_left {A C : List (String × Json)} {k : String} {v : Json}
    (h : lookupJson A k = some v) : lookupJson (A ++ C) k = some v := by
  induction A with
  | nil => simp [lookupJson] at h
  | cons kv rest ih =>
    obtain ⟨k2, v2⟩ := kv
    by_cases h2 : (k2 == k) = true
    · simp only [lookupJson, h2, if_pos] at h
      simp only [List.cons_append, lookupJson, h2, if_pos, h]
    · simp only [lookupJson, h2, if_neg, not_false_iff, Bool.false_eq_true] at h
      simp only [List.cons_append, lookupJson, h2, Bool.false_eq_true, if_neg,
        not_false_iff]
      exact ih h

lemma lookupJson_mergeCommon {A : List (String × Json)} (B : List (String × Json))
    {k : String} {va : Json} (h : lookupJson A k = some va) :
    lookupJson (mergeCommon A B) k =
      some (match lookupJson B k with
            | some vb => mergeVal va vb
            | none => va) := by
  induction A with
  | nil => simp [lookupJson] at h
  | cons kv rest ih =>
    obtain ⟨k2, v2⟩ := kv
    rw [mergeCommon]
    by_cases h2 : (k2 == k) = true
    · have hk : k2 = k := eq_of_beq h2
      subst hk
      simp only [lookupJson, h2, if_pos] at h
      obtain rfl : v2 = va := by injection h
      simp [lookupJson, h2]
    · simp only [lookupJson, h2, Bool.false_eq_true, if_neg, not_false_iff] at h
      simp only [lookupJson, h2, Bool.false_eq_true, if_neg, not_false_iff]
      exact ih h

/-- Counterexample to claim C3 as stated: at `A = {"k":[{"x":1}]}` and
`B = {"k":[{"x":1}]}`, the two array elements are structurally equal, so the
claimed first-seen-order deduplicated union keeps a single element — but the
`new Set` of line 137 compares by SameValueZero, and the two objects are
distinct references produced by two separate `JSON.parse` calls, so the
program keeps both copies: duplicates of object or array elements are never
removed. -/
theorem mergeJsonFile_composite_dedup_cex :
    lookupJson
      (mergeObjEntries [("k", Json.arr [Json.obj [("x", Json.num 1)]])]
        [("k", Json.arr [Json.obj [("x", Json.num 1)]])]) "k" =
      some (Json.arr [Json.obj [("x", Json.num 1)], Json.obj [("x", Json.num 1)]]) ∧
    firstSeenDedup
      ([Json.obj [("x", Json.num 1)]] ++ [Json.obj [("x", Json.num 1)]]) =
      [Json.obj [("x", Json.num 1)]] ∧
    lookupJson
      (mergeObjEntries [("k", Json.arr [Json.obj [("x", Json.num 1)]])]
        [("k", Json.arr [Json.obj [("x", Json.num 1)]])]) "k" ≠
      some (Json.arr (firstSeenDedup
        ([Json.obj [("x", Json.num 1)]] ++ [Json.obj [("x", Json.num 1)]]))) := by
  have h1 : lookupJson
      (mergeObjEntries [("k", Json.arr [Json.obj [("x", Json.num 1)]])]
        [("k", Json.arr [Json.obj [("x", Json.num 1)]])]) "k" =
      some (Json.arr [Json.obj [("x", Json.num 1)], Json.obj [("x", Json.num 1)]]) := by
    simp [mergeObjEntries, mergeCommon, mergeVal, lookupJson, jsSetDedup,
      jsSameValueZero, jsConcatArg]
  have h2 : firstSeenDedup
      ([Json.obj [("x", Json.num 1)]] ++ [Json.obj [("x", Json.num 1)]]) =
      [Json.obj [("x", Json.num 1)]] := by
    simp [firstSeenDedup, json_beq_eq, Json.beq, Json.beqPairs]
  refine ⟨h1, h2, ?_⟩
  rw [h1, h2]
  simp

/-- Claim C3 amended: for JSON objects `A` (existing destination) and `B`
(template) that both hold an array at a shared key, the merged object produced
by `mergeJsonFile`'s `mergeWith` call binds that key to the concatenation of
`A`'s array followed by `B`'s with duplicates removed under the `Set`'s
SameValueZero equality, keeping the first occurrence — which deduplicates
primitive elements by value but never removes object or array elements, since
those are distinct references after parsing; in particular, when every element
of both arrays is primitive, the result is exactly the first-seen-order
deduplicated union the spec describes. -/
theorem mergeJsonFile_shared_array_key (A B : List (String × Json)) (k : String)
    (xs ys : List Json)
    (ha : lookupJson A k = some (.arr xs)) (hb : lookupJson B k = some (.arr ys)) :
    jsMergeWith (.obj A) (.obj B) = .obj (mergeObjEntries A B) ∧
    lookupJson (mergeObjEntries A B) k = some (.arr (jsSetDedup (xs ++ ys))) ∧
    ((xs ++ ys).all jsIsPrimitive = true →
      jsSetDedup (xs ++ ys) = firstSeenDedup (xs ++ ys)) := by
  refine ⟨rfl, ?_, fun hp => jsSetDedup_eq_firstSeenDedup_of_prim _ hp⟩
  rw [mergeObjEntries]
  have hcommon := lookupJson_mergeCommon B ha
  rw [hb] at hcommon
  have hcommon2 : lookupJson (mergeCommon A B) k =
      some (mergeVal (.arr xs) (.arr ys)) := hcommon
  have hmv : mergeVal (.arr xs) (.arr ys) = .arr (jsSetDedup (xs ++ ys)) := by
    rw [mergeVal, jsConcatArg]
  rw [hmv] at hcommon2
  exact lookupJson_append_left hcommon2

/-- Concrete instance of the amended C3 theorem on all-primitive arrays, with
every hypothesis discharged by evaluation. -/
theorem mergeJsonFile_shared_array_key_witness :
    lookupJson
      (mergeObjEntries [("deps", Json.arr [Json.str "a", Json.str "b"])]
        [("deps", Json.arr [Json.str "b", Json.str "c"])]) "deps" =
      some (Json.arr (jsSetDedup
        ([Json.str "a", Json.str "b"] ++ [Json.str "b", Json.str "c"]))) ∧
    jsSetDedup ([Json.str "a", Json.str "b"] ++ [Json.str "b", Json.str "c"]) =
      firstSeenDedup ([Json.str "a", Json.str "b"] ++ [Json.str "b", Json.str "c"]) :=
  ⟨(mergeJsonFile_shared_array_key [("deps", Json.arr [Json.str "a", Json.str "b"])]
      [("deps", Json.arr [Json.str "b", Json.str "c"])] "deps"
      [Json.str "a", Json.str "b"] [Json.str "b", Json.str "c"] rfl rfl).2.1,
   (mergeJsonFile_shared_array_key [("deps", Json.arr [Json.str "a", Json.str "b"])]
      [("deps", Json.arr [Json.str "b", Json.str "c"])] "deps"
      [Json.str "a", Json.str "b"] [Json.str "b", Json.str "c"] rfl rfl).2.2
     (by decide)⟩

/-- Claim C2: a template file entry whose destination is absent, or present as
a file whose (renamed) name is not in the mergeable table, is copied over the
destination unconditionally, overwriting any existing content. -/
theorem copyTemplate_copies_absent_or_nonmergeable
    (name c : String) (dest : List (String × FS)) (opts : List String)
    (h : lookupEntry dest (renameEntryName name) = none ∨
      ((∃ e, lookupEntry dest (renameEntryName name) = some (.file e)) ∧
        isMergeable (renameEntryName name) = false)) :
    copyEntry name (.file c) dest opts =
      .ok (setEntry dest (renameEntryName name) (.file c)) := by
  rcases h with h | ⟨⟨e, he⟩, hm⟩
  · simp only [copyEntry, h]
  · simp only [copyEntry, he, hm]
    simp

/-- Concrete instance of the C2 theorem: absent destination. -/
theorem copyTemplate_copies_absent_or_nonmergeable_witness :
    copyEntry "index.js" (.file "console.log(1)") [] [] =
      .ok (setEntry [] (renameEntryName "index.js") (.file "console.log(1)")) :=
  copyTemplate_copies_absent_or_nonmergeable "index.js" "console.log(1)" [] []
    (Or.inl rfl)

/-- Counterexample to claim C1 as stated: the destination file `README.md`
exists with content `"old"`, the name is not in the mergeable table, and the
template holds content `"new"` — yet `copyTemplate` does not leave the
destination unmodified: the condition on line 99 (`!exists || !isMergeable`)
is true whenever the name is non-mergeable, so the file is overwritten. -/
theorem copyTemplate_existing_nonmergeable_cex :
    copyEntry "README.md" (.file "new") [("README.md", FS.file "old")] [] =
      .ok [("README.md", FS.file "new")] ∧
    copyEntry "README.md" (.file "new") [("README.md", FS.file "old")] [] ≠
      .ok [("README.md", FS.file "old")] := by
  have hev : copyEntry "README.md" (.file "new") [("README.md", FS.file "old")] [] =
      .ok [("README.md", FS.file "new")] := by
    simp [copyEntry, lookupEntry, setEntry, renameEntryName, isMergeable, mergeFiles]
  exact ⟨hev, by rw [hev]; simp⟩

/-- Claim C1 amended: a template file entry whose (renamed) name is not in the
mergeable table and whose destination file exists is overwritten with the
template file's contents — copied, not merged and not skipped. -/
theorem copyTemplate_existing_nonmergeable_overwrites
    (name c e : String) (dest : List (String × FS)) (opts : List String)
    (he : lookupEntry dest (renameEntryName name) = some (.file e))
    (hm : isMergeable (renameEntryName name) = false) :
    copyEntry name (.file c) dest opts =
      .ok (setEntry dest (renameEntryName name) (.file c)) := by
  simp only [copyEntry, he, hm]
  simp

/-- Concrete instance of the amended C1 theorem. -/
theorem copyTemplate_existing_nonmergeable_overwrites_witness :
    copyEntry "README.md" (.file "new") [("README.md", FS.file "old")] [] =
      .ok (setEntry [("README.md", FS.file "old")] (renameEntryName "README.md")
        (.file "new")) :=
  copyTemplate_existing_nonmergeable_overwrites "README.md" "new" "old"
    [("README.md", FS.file "old")] [] rfl rfl

lemma isMergeable_of_strategy {n s : String} (h : mergeStrategyOf n = some s) :
    isMergeable n = true := by
  have : ∀ (l : List (String × String)), List.lookup n l = some s →
      (l.map Prod.fst).contains n = true := by
    intro l
    induction l with
    | nil => intro h2; simp [List.lookup] at h2
    | cons kv rest ih =>
      intro h2
      obtain ⟨k, v⟩ := kv
      rw [List.lookup] at h2
      by_cases hk : (n == k) = true
      · rw [List.map_cons, List.contains_cons, hk, Bool.true_or]
      · simp only [hk, Bool.false_eq_true, if_neg, not_false_iff] at h2
        rw [List.map_cons, List.contains_cons, ih h2, Bool.or_true]
  exact this mergeFiles h

/-- Claim C4: when a template file entry is dispatched to the `append` merge
strategy (existing destination file, strategy table maps the renamed name to
`append`), the destination directory is returned unchanged: `appendFiles` only
logs the split lines and persists nothing. -/
theorem appendFiles_leaves_destination
    (name c e : String) (dest : List (String × FS)) (opts : List String)
    (he : lookupEntry dest (renameEntryName name) = some (.file e))
    (hs : mergeStrategyOf (renameEntryName name) = some "append") :
    copyEntry name (.file c) dest opts = .ok dest := by
  have hm : isMergeable (renameEntryName name) = true := isMergeable_of_strategy hs
  simp only [copyEntry, he, hm, hs]
  simp

/-- Concrete instance of the C4 theorem: an existing `.gitignore` is untouched. -/
theorem appendFiles_leaves_destination_witness :
    copyEntry ".gitignore" (.file "dist\n") [(".gitignore", FS.file "node_modules\n")] [] =
      .ok [(".gitignore", FS.file "node_modules\n")] :=
  appendFiles_leaves_destination ".gitignore" "dist\n" "node_modules\n"
    [(".gitignore", FS.file "node_modules\n")] [] rfl rfl

/-- Claim C9: a template entry named `._<rest>` is written to the destination
entry named `.<rest>` (line 76 renames before any other processing), and the
mergeable-name lookup is performed on the renamed name: if the renamed name is
absent the file is copied to the renamed name, and if the renamed name exists
as a file with the `append` strategy the entry is merged (left untouched), not
copied. -/
theorem copyTemplate_rename_and_merge_lookup (cs : List Char) (c : String)
    (dest : List (String × FS)) (opts : List String) :
    renameEntryName ⟨'.' :: '_' :: cs⟩ = ⟨'.' :: cs⟩ ∧
    (lookupEntry dest ⟨'.' :: cs⟩ = none →
      copyEntry ⟨'.' :: '_' :: cs⟩ (.file c) dest opts =
        .ok (setEntry dest ⟨'.' :: cs⟩ (.file c))) ∧
    (∀ e, lookupEntry dest ⟨'.' :: cs⟩ = some (.file e) →
      mergeStrategyOf ⟨'.' :: cs⟩ = some "append" →
      copyEntry ⟨'.' :: '_' :: cs⟩ (.file c) dest opts = .ok dest) := by
  have hr : renameEntryName ⟨'.' :: '_' :: cs⟩ = ⟨'.' :: cs⟩ := rfl
  refine ⟨hr, ?_, ?_⟩
  · intro h
    have := copyTemplate_copies_absent_or_nonmergeable ⟨'.' :: '_' :: cs⟩ c dest opts
      (Or.inl (by rw [hr]; exact h))
    rw [hr] at this
    exact this
  · intro e he hs
    have := appendFiles_leaves_destination ⟨'.' :: '_' :: cs⟩ c e dest opts
      (by rw [hr]; exact he) (by rw [hr]; exact hs)
    exact this

/-- Concrete instance of the C9 theorem: template `._gitignore` with an
existing destination `.gitignore` is dispatched to the `append` merge on the
renamed name (hence left untouched), not copied to `._gitignore`. -/
theorem copyTemplate_rename_and_merge_lookup_witness :
    copyEntry "._gitignore" (.file "dist\n") [(".gitignore", FS.file "node_modules\n")] [] =
      .ok [(".gitignore", FS.file "node_modules\n")] :=
  (copyTemplate_rename_and_merge_lookup "gitignore".data "dist\n"
    [(".gitignore", FS.file "node_modules\n")] []).2.2 "node_modules\n" rfl rfl

lemma optionComposeCalls_getElem (opts : List String) :
    ∀ (acc : List String) (n : Nat),
      (optionComposeCalls opts acc)[n]? =
        (opts[n]?).map fun o => ("with-" ++ o, acc ++ opts.take n) := by
  induction opts with
  | nil => intro acc n; simp [optionComposeCalls]
  | cons o rest ih =>
    intro acc n
    match n with
    | 0 => simp [optionComposeCalls]
    | n + 1 =>
      rw [optionComposeCalls]
      simp only [List.getElem?_cons_succ, ih (acc ++ [o]) n, List.take_succ_cons]
      cases rest[n]? <;> simp

/-- Counterexample to claim C5 as stated: with the single selected option
`eslint`, the base-template compose call receives the full selected-options
list (line 59 passes `options`), not an empty accumulator. -/
theorem init_base_accumulator_cex :
    (init [] ⟨false, [], false, ["eslint"]⟩).composeCalls =
      [("repo-base", ["eslint"]), ("with-eslint", [])] ∧
    (("repo-base", ["eslint"]) : String × List String) ≠ ("repo-base", []) := by
  constructor
  · rfl
  · decide

/-- Claim C5 amended: whenever `init` proceeds to composition, the base
template is composed first with the full selected-options list as its
applied-options argument, and then option `N` (0-indexed `n`) is composed with
exactly the accumulator `[o1 .. o(N-1)]` in selection order, the option being
appended to the accumulator only after its own call — so option `N`'s compose
call sees options `1 .. N-1` as applied but never itself or later ones. -/
theorem init_compose_call_order (templates : List (String × FS)) (i : InitInputs)
    (h : i.targetDirExists = false ∨ i.existingEntries = [] ∨ i.confirmClear = true) :
    (init templates i).composeCalls.head? = some ("repo-base", i.options) ∧
    ∀ n : Nat, (init templates i).composeCalls[n + 1]? =
      (i.options[n]?).map fun o => ("with-" ++ o, i.options.take n) := by
  have hcalls : (init templates i).composeCalls = initComposeCalls i.options := by
    rcases h with h | h | h
    · rw [init, if_neg]
      simp [h]
    · rw [init, if_neg]
      simp [h]
    · rw [init, if_neg]
      simp [h]
  rw [hcalls, initComposeCalls]
  refine ⟨rfl, fun n => ?_⟩
  simpa using optionComposeCalls_getElem i.options [] n

/-- Concrete instance of the amended C5 theorem with two selected options:
the second option's call sees exactly the first option as applied. -/
theorem init_compose_call_order_witness :
    (init [] ⟨false, [], false, ["eslint", "prettier"]⟩).composeCalls[1]? =
      some ("with-eslint", []) ∧
    (init [] ⟨false, [], false, ["eslint", "prettier"]⟩).composeCalls[2]? =
      some ("with-prettier", ["eslint"]) := by
  have h := init_compose_call_order []
    ⟨false, [], false, ["eslint", "prettier"]⟩ (Or.inl rfl)
  exact ⟨h.2 0, h.2 1⟩

/-- Claim C6: when the target directory exists and is non-empty and the user
declines the clear-confirmation prompt, `init` returns immediately: nothing is
deleted or modified in the directory and no template composition happens. -/
theorem init_declined_aborts (templates : List (String × FS)) (i : InitInputs)
    (h1 : i.targetDirExists = true) (h2 : i.existingEntries ≠ [])
    (h3 : i.confirmClear = false) :
    (init templates i).aborted = true ∧
    (init templates i).root = .ok i.existingEntries ∧
    (init templates i).composeCalls = [] := by
  have hne : i.existingEntries.isEmpty = false := by
    cases he : i.existingEntries with
    | nil => exact absurd he h2
    | cons a l => rfl
  rw [init, if_pos]
  · exact ⟨rfl, rfl, rfl⟩
  · rw [h1, h3, hne]
    rfl

/-- Concrete instance of the C6 theorem. -/
theorem init_declined_aborts_witness :
    (init [] ⟨true, [("a.txt", FS.file "x")], false, ["eslint"]⟩).aborted = true ∧
    (init [] ⟨true, [("a.txt", FS.file "x")], false, ["eslint"]⟩).root =
      .ok [("a.txt", FS.file "x")] ∧
    (init [] ⟨true, [("a.txt", FS.file "x")], false, ["eslint"]⟩).composeCalls = [] :=
  init_declined_aborts [] ⟨true, [("a.txt", FS.file "x")], false, ["eslint"]⟩
    rfl (by simp) rfl

lemma strategy_closed (n : String) (h : isMergeable n = true) :
    mergeStrategyOf n = some "json" ∨ mergeStrategyOf n = some "append" := by
  have h2 : n ∈ [".eslintrc", "package.json", "lerna.json", ".gitignore",
      ".prettierignore"] := by
    simpa [isMergeable, mergeFiles] using h
  simp only [List.mem_cons, List.not_mem_nil, or_false] at h2
  rcases h2 with rfl | rfl | rfl | rfl | rfl
  · exact Or.inl rfl
  · exact Or.inl rfl
  · exact Or.inl rfl
  · exact Or.inr rfl
  · exact Or.inr rfl

lemma mergeJsonFile_error_shape {a b : String} {er : JsError}
    (h : mergeJsonFile a b = .error er) : ∃ m, er = .syntaxError m := by
  unfold mergeJsonFile at h
  split at h
  · simp only [Except.error.injEq] at h
    exact ⟨_, h.symm⟩
  · split at h
    · simp only [Except.error.injEq] at h
      exact ⟨_, h.symm⟩
    · simp at h

lemma copyEntry_file_no_unhandled (name c : String) (dest : List (String × FS))
    (opts : List String) (s : Option String) :
    copyEntry name (.file c) dest opts ≠ .error (.unhandledCase s) := by
  intro hcontra
  simp only [copyEntry] at hcontra
  split at hcontra
  · simp at hcontra
  · simp at hcontra
  · rename_i existing heq
    split at hcontra
    · rename_i hm
      split at hcontra
      · split at hcontra
        · simp at hcontra
        · rename_i er herr
          obtain ⟨m, rfl⟩ := mergeJsonFile_error_shape herr
          simp at hcontra
      · simp at hcontra
      · rename_i hother h1 h2
        rcases strategy_closed _ hm with hs | hs
        · exact h1 hs
        · exact h2 hs
    · simp at hcontra

lemma copyEntry_no_unhandled :
    ∀ (name : String) (entry : FS) (dest : List (String × FS)) (opts : List String)
      (s : Option String),
      copyEntry name entry dest opts ≠ .error (.unhandledCase s) := by
  intro name entry dest opts
  induction name, entry, dest, opts using copyEntry.induct
  case motive2 =>
    rename_i t d o
    exact ∀ s, copyTemplate t d o ≠ .error (.unhandledCase s)
  case motive3 =>
    rename_i v d o
    exact ∀ s, applyOverrides v d o ≠ .error (.unhandledCase s)
  all_goals intro s
  all_goals simp_all [copyEntry, copyTemplate, applyOverrides]
  case case10 =>
    intro hcontra
    subst hcontra
    obtain ⟨m, hm⟩ := mergeJsonFile_error_shape (by assumption)
    simp at hm
  case case12 =>
    intro _
    rcases strategy_closed _ (by assumption) with hs | hs
    · exact absurd hs (by assumption)
    · exact absurd hs (by assumption)

/-- Claim C7: every filename in the mergeable table maps to either the `json`
or the `append` strategy, and consequently the `default` branch of the merge
dispatch — which would fail fast with the distinct `UnhandledCaseError` — is
unreachable: no composition step ever produces that error. -/
theorem merge_dispatch_never_unhandled :
    (∀ n, isMergeable n = true →
      mergeStrategyOf n = some "json" ∨ mergeStrategyOf n = some "append") ∧
    ∀ (name : String) (entry : FS) (dest : List (String × FS)) (opts : List String)
      (s : Option String),
      copyEntry name entry dest opts ≠ .error (.unhandledCase s) :=
  ⟨strategy_closed, copyEntry_no_unhandled⟩

/-- Concrete instance of the C7 theorem. -/
theorem merge_dispatch_never_unhandled_witness :
    (mergeStrategyOf ".eslintrc" = some "json" ∨
      mergeStrategyOf ".eslintrc" = some "append") ∧
    copyEntry "a.txt" (.file "x") [] [] ≠ .error (.unhandledCase none) :=
  ⟨merge_dispatch_never_unhandled.1 ".eslintrc" (by decide),
   merge_dispatch_never_unhandled.2 "a.txt" (.file "x") [] [] none⟩

lemma lookupEntry_nil (n : String) : lookupEntry [] n = none := rfl

lemma setEntry_of_lookup_none {d : List (String × FS)} {n : String} (v : FS)
    (h : lookupEntry d n = none) : setEntry d n v = d ++ [(n, v)] := by
  induction d with
  | nil => rfl
  | cons hd tl ih =>
    obtain ⟨m, e⟩ := hd
    rw [lookupEntry] at h
    by_cases hm : m = n
    · simp [hm] at h
    · rw [setEntry, if_neg hm]
      rw [if_neg hm] at h
      simp [ih h]

lemma lookupEntry_append_of_none {d1 : List (String × FS)} (d2 : List (String × FS))
    {n : String} (h : lookupEntry d1 n = none) :
    lookupEntry (d1 ++ d2) n = lookupEntry d2 n := by
  induction d1 with
  | nil => rfl
  | cons hd tl ih =>
    obtain ⟨m, e⟩ := hd
    rw [lookupEntry] at h
    by_cases hm : m = n
    · simp [hm] at h
    · rw [if_neg hm] at h
      rw [List.cons_append, lookupEntry, if_neg hm]
      exact ih h

lemma applyOverrides_empty_opts (ovr : List (String × FS)) (d : List (String × FS)) :
    applyOverrides ovr d [] = .ok d := by
  induction ovr with
  | nil => simp [applyOverrides]
  | cons hd rest ih =>
    obtain ⟨oname, oe⟩ := hd
    cases oe with
    | file c => simp only [applyOverrides]; exact ih
    | dir oes => simp [applyOverrides, ih]

lemma copyTemplate_pruneAll (t d : List (String × FS)) :
    copyTemplate t d [] = copyTemplate (pruneAllMarkers t) d [] := by
  suffices H : ∀ (k : Nat) (t d : List (String × FS)), sizeOf t ≤ k →
      copyTemplate t d [] = copyTemplate (pruneAllMarkers t) d [] from
    H (sizeOf t) t d le_rfl
  intro k
  induction k with
  | zero =>
    intro t d hle
    exfalso
    cases t <;> simp_all
  | succ k ih =>
    intro t d hle
    cases t with
    | nil => simp [pruneAllMarkers]
    | cons hd rest =>
      obtain ⟨n, e⟩ := hd
      cases e with
      | file c =>
        have hr : sizeOf rest ≤ k := by
          simp only [List.cons.sizeOf_spec, Prod.mk.sizeOf_spec, FS.file.sizeOf_spec] at hle
          omega
        simp only [pruneAllMarkers, copyTemplate]
        cases hc : copyEntry n (.file c) d [] with
        | ok d2 => exact ih rest d2 hr
        | error er => rfl
      | dir cs =>
        have hsz : sizeOf cs ≤ k ∧ sizeOf rest ≤ k := by
          simp only [List.cons.sizeOf_spec, Prod.mk.sizeOf_spec, FS.dir.sizeOf_spec] at hle
          omega
        by_cases hn : n = ".tsukemono"
        · subst hn
          rw [pruneAllMarkers, if_pos rfl]
          simp only [copyTemplate]
          have hme : copyEntry ".tsukemono" (.dir cs) d [] = .ok d := by
            simp only [copyEntry, if_pos rfl]
            exact applyOverrides_empty_opts cs d
          rw [hme]
          exact ih rest d hsz.2
        · rw [pruneAllMarkers, if_neg hn]
          simp only [copyTemplate]
          have hhead : copyEntry n (.dir cs) d [] =
              copyEntry n (.dir (pruneAllMarkers cs)) d [] := by
            cases hl : lookupEntry d (renameEntryName n) with
            | none =>
              simp only [copyEntry, if_neg hn, hl]
              rw [ih cs [] hsz.1]
            | some e2 =>
              cases e2 with
              | file c2 => simp only [copyEntry, if_neg hn, hl]
              | dir sub =>
                simp only [copyEntry, if_neg hn, hl]
                rw [ih cs sub hsz.1]
          rw [hhead]
          cases hc : copyEntry n (.dir (pruneAllMarkers cs)) d [] with
          | ok d2 => exact ih rest d2 hsz.2
          | error er => rfl

lemma applyOverrides_prune (cs : List (String × FS)) :
    ∀ (d : List (String × FS)) (o : List String),
      applyOverrides cs d o = applyOverrides (pruneOverrideChildren cs) d o := by
  induction cs with
  | nil => intro d o; simp [pruneOverrideChildren]
  | cons hd rest ih =>
    intro d o
    obtain ⟨m, e⟩ := hd
    cases e with
    | file c =>
      simp only [pruneOverrideChildren, applyOverrides]
      exact ih d o
    | dir ds =>
      simp only [pruneOverrideChildren, applyOverrides]
      by_cases hc : o.contains (stripWithMarker m) = true
      · rw [if_pos hc, if_pos hc, ← copyTemplate_pruneAll ds d]
        cases hr : copyTemplate ds d [] with
        | ok d2 => exact ih d2 o
        | error er => rfl
      · rw [if_neg hc, if_neg hc]
        exact ih d o

/-- Claim C10: when `copyTemplate` composes a selected option's override tree
found under the reserved `.tsukemono` marker, the recursive call passes an
empty applied-options list (line 91 forwards no accumulator), so `.tsukemono`
directories nested strictly inside override trees are never applied: erasing
all of them from the template changes nothing, whatever options are selected. -/
theorem nested_markers_never_applied (t d : List (String × FS)) (opts : List String) :
    copyTemplate t d opts = copyTemplate (pruneNestedMarkers t) d opts := by
  suffices H : ∀ (k : Nat) (t d : List (String × FS)) (opts : List String),
      sizeOf t ≤ k →
      copyTemplate t d opts = copyTemplate (pruneNestedMarkers t) d opts from
    H (sizeOf t) t d opts le_rfl
  intro k
  induction k with
  | zero =>
    intro t d opts hle
    exfalso
    cases t <;> simp_all
  | succ k ih =>
    intro t d opts hle
    cases t with
    | nil => simp [pruneNestedMarkers]
    | cons hd rest =>
      obtain ⟨n, e⟩ := hd
      cases e with
      | file c =>
        have hr : sizeOf rest ≤ k := by
          simp only [List.cons.sizeOf_spec, Prod.mk.sizeOf_spec, FS.file.sizeOf_spec] at hle
          omega
        simp only [pruneNestedMarkers, copyTemplate]
        cases hc : copyEntry n (.file c) d opts with
        | ok d2 => exact ih rest d2 opts hr
        | error er => rfl
      | dir cs =>
        have hsz : sizeOf cs ≤ k ∧ sizeOf rest ≤ k := by
          simp only [List.cons.sizeOf_spec, Prod.mk.sizeOf_spec, FS.dir.sizeOf_spec] at hle
          omega
        by_cases hn : n = ".tsukemono"
        · subst hn
          rw [pruneNestedMarkers, if_pos rfl]
          simp only [copyTemplate]
          have hhead : copyEntry ".tsukemono" (.dir cs) d opts =
              copyEntry ".tsukemono" (.dir (pruneOverrideChildren cs)) d opts := by
            simp only [copyEntry, if_pos rfl]
            exact applyOverrides_prune cs d opts
          rw [hhead]
          cases hc : copyEntry ".tsukemono" (.dir (pruneOverrideChildren cs)) d opts with
          | ok d2 => exact ih rest d2 opts hsz.2
          | error er => rfl
        · rw [pruneNestedMarkers, if_neg hn]
          simp only [copyTemplate]
          have hhead : copyEntry n (.dir cs) d opts =
              copyEntry n (.dir (pruneNestedMarkers cs)) d opts := by
            cases hl : lookupEntry d (renameEntryName n) with
            | none =>
              simp only [copyEntry, if_neg hn, hl]
              rw [ih cs [] opts hsz.1]
            | some e2 =>
              cases e2 with
              | file c2 => simp only [copyEntry, if_neg hn, hl]
              | dir sub =>
                simp only [copyEntry, if_neg hn, hl]
                rw [ih cs sub opts hsz.1]
          rw [hhead]
          cases hc : copyEntry n (.dir (pruneNestedMarkers cs)) d opts with
          | ok d2 => exact ih rest d2 opts hsz.2
          | error er => rfl

lemma copyTemplate_fresh :
    ∀ (k : Nat) (t d : List (String × FS)), sizeOf t ≤ k →
      ((renamedTree t).map Prod.fst).Nodup → subtreesOk t = true →
      (∀ p ∈ renamedTree t, lookupEntry d p.1 = none) →
      copyTemplate t d [] = .ok (d ++ renamedTree t) := by
  intro k
  induction k with
  | zero =>
    intro t d hle _ _ _
    exfalso
    cases t <;> simp_all
  | succ k ih =>
    intro t d hle hnd hst hfresh
    cases t with
    | nil => simp [copyTemplate, renamedTree]
    | cons hd rest =>
      obtain ⟨n, e⟩ := hd
      cases e with
      | file c =>
        have hr : sizeOf rest ≤ k := by
          simp only [List.cons.sizeOf_spec, Prod.mk.sizeOf_spec, FS.file.sizeOf_spec] at hle
          omega
        simp only [renamedTree] at hnd hfresh ⊢
        have hl : lookupEntry d (renameEntryName n) = none :=
          hfresh (renameEntryName n, .file c) (List.mem_cons_self _ _)
        simp only [copyTemplate]
        have hcopy : copyEntry n (.file c) d [] =
            .ok (setEntry d (renameEntryName n) (.file c)) := by
          simp only [copyEntry, hl]
        rw [hcopy, setEntry_of_lookup_none _ hl]
        simp only [List.map_cons, List.nodup_cons] at hnd
        rw [subtreesOk] at hst
        have hfresh2 : ∀ p ∈ renamedTree rest,
            lookupEntry (d ++ [(renameEntryName n, FS.file c)]) p.1 = none := by
          intro p hp
          have h1 : lookupEntry d p.1 = none := hfresh p (List.mem_cons_of_mem _ hp)
          rw [lookupEntry_append_of_none _ h1, lookupEntry]
          rw [if_neg]
          · rfl
          · intro hcontra
            exact hnd.1 (hcontra ▸ List.mem_map_of_mem Prod.fst hp)
        show copyTemplate rest (d ++ [(renameEntryName n, FS.file c)]) [] =
          Except.ok (d ++ (renameEntryName n, FS.file c) :: renamedTree rest)
        rw [ih rest (d ++ [(renameEntryName n, FS.file c)]) hr hnd.2 hst hfresh2]
        simp
      | dir cs =>
        have hsz : sizeOf cs ≤ k ∧ sizeOf rest ≤ k := by
          simp only [List.cons.sizeOf_spec, Prod.mk.sizeOf_spec, FS.dir.sizeOf_spec] at hle
          omega
        by_cases hn : n = ".tsukemono"
        · subst hn
          rw [renamedTree, if_pos rfl] at hnd hfresh ⊢
          rw [subtreesOk, if_pos rfl, Bool.true_and] at hst
          simp only [copyTemplate]
          have hme : copyEntry ".tsukemono" (.dir cs) d [] = .ok d := by
            simp only [copyEntry, if_pos rfl]
            exact applyOverrides_empty_opts cs d
          rw [hme]
          exact ih rest d hsz.2 hnd hst hfresh
        · rw [renamedTree, if_neg hn] at hnd hfresh ⊢
          rw [subtreesOk, if_neg hn, Bool.and_eq_true] at hst
          rw [renamedTreeOk, Bool.and_eq_true, decide_eq_true_eq] at hst
          have hl : lookupEntry d (renameEntryName n) = none :=
            hfresh (renameEntryName n, .dir (renamedTree cs)) (List.mem_cons_self _ _)
          have hsub : copyTemplate cs [] [] = .ok (renamedTree cs) := by
            have := ih cs [] hsz.1 hst.1.1 hst.1.2 (fun p _ => rfl)
            simpa using this
          simp only [copyTemplate]
          have hcopy : copyEntry n (.dir cs) d [] =
              .ok (setEntry d (renameEntryName n) (.dir (renamedTree cs))) := by
            simp only [copyEntry, if_neg hn, hl, hsub]
          rw [hcopy, setEntry_of_lookup_none _ hl]
          simp only [List.map_cons, List.nodup_cons] at hnd
          have hfresh2 : ∀ p ∈ renamedTree rest,
              lookupEntry (d ++ [(renameEntryName n, FS.dir (renamedTree cs))]) p.1 =
                none := by
            intro p hp
            have h1 : lookupEntry d p.1 = none := hfresh p (List.mem_cons_of_mem _ hp)
            rw [lookupEntry_append_of_none _ h1, lookupEntry]
            rw [if_neg]
            · rfl
            · intro hcontra
              exact hnd.1 (hcontra ▸ List.mem_map_of_mem Prod.fst hp)
          show copyTemplate rest (d ++ [(renameEntryName n, FS.dir (renamedTree cs))]) [] =
            Except.ok (d ++ (renameEntryName n, FS.dir (renamedTree cs)) :: renamedTree rest)
          rw [ih rest (d ++ [(renameEntryName n, FS.dir (renamedTree cs))]) hsz.2
            hnd.2 hst.2 hfresh2]
          simp

/-- Counterexample to claim C8 as stated: a base template containing the entry
`._gitignore` composed into an empty destination yields a destination entry
named `.gitignore` — the trees differ in entry names, so the result is not
byte-for-byte identical to the template tree. -/
theorem copyTemplate_empty_dest_cex :
    copyTemplate [("._gitignore", FS.file "x")] [] [] =
      .ok [(".gitignore", FS.file "x")] ∧
    (".gitignore" : String) ≠ "._gitignore" := by
  constructor
  · simp [copyTemplate, copyEntry, lookupEntry, setEntry, renameEntryName]
  · decide

/-- Claim C8 amended: composing a template tree into an empty destination with
no applied options produces the template's tree with every reserved
`.tsukemono` directory removed and every leading `._` entry name renamed to
`.`, file contents byte-for-byte — hence byte-for-byte identical to the
template tree itself whenever no entry name starts with `._` and no reserved
directory occurs. The hypothesis asks the renamed sibling names to stay
pairwise distinct, which holds for every tree readable from disk unless the
renaming makes two siblings collide. -/
theorem copyTemplate_empty_dest_renamed (t : List (String × FS))
    (h : renamedTreeOk t = true) :
    copyTemplate t [] [] = .ok (renamedTree t) := by
  rw [renamedTreeOk, Bool.and_eq_true, decide_eq_true_eq] at h
  simpa using copyTemplate_fresh (sizeOf t) t [] le_rfl h.1 h.2 (fun p _ => rfl)

/-- Concrete instance of the amended C8 theorem, hypothesis evaluated. -/
theorem copyTemplate_empty_dest_renamed_witness :
    copyTemplate [("package.json", FS.file "ok"), ("src", FS.dir [("a.js", FS.file "x")])]
      [] [] =
      .ok (renamedTree
        [("package.json", FS.file "ok"), ("src", FS.dir [("a.js", FS.file "x")])]) :=
  copyTemplate_empty_dest_renamed
    [("package.json", FS.file "ok"), ("src", FS.dir [("a.js", FS.file "x")])]
    (by simp [renamedTreeOk, subtreesOk, renamedTree, renameEntryName])
